import Mathlib

/-!
Verification of the OpenAPI foreign data wrapper core
(files `spec.rs` and `lib.rs` of the `openapi_fdw` crate).

The development shallowly embeds the Rust code:
Rust `HashMap` fields become association lists (key uniqueness is what the
code relies on; iteration-order facts are never used by the embedded
functions except across distinct members, where the source order is the
slice order and is preserved here), Rust `String` becomes Lean `String`
with character-list manipulation mirroring the `str` methods used by the
source, fallible code returns `Option`/`Except`, and the mutually
recursive schema resolution is embedded with an explicit recursion-depth
budget (the Rust recursion terminates on an input precisely when some
finite budget suffices, and the value is then independent of the budget).
-/

set_option maxRecDepth 4000

/-! ## Character-list string helpers (mirroring the `str` methods used by the source) -/

/-- Mirrors Rust `s.trim_start_matches("#/")`: repeatedly removes a leading
occurrence of the two-character pattern. -/
def trimStartHashSlash : List Char → List Char
  | '#' :: '/' :: rest => trimStartHashSlash rest
  | l => l

/-- Mirrors Rust `s.split(c)`: always yields at least one (possibly empty)
segment, and a trailing separator yields a trailing empty segment. -/
def splitChar (c : Char) : List Char → List (List Char)
  | [] => [[]]
  | x :: rest =>
    if x = c then [] :: splitChar c rest
    else
      match splitChar c rest with
      | [] => [[x]]
      | seg :: segs => (x :: seg) :: segs

/-- Mirrors Rust `str::to_lowercase` (ASCII-adequate, which is all the
embedded comparisons need). -/
def toLowerString (s : String) : String := String.mk (s.data.map Char.toLower)

/-! ## OpenAPI schema model (`spec.rs`) -/

/-- The `Schema` struct of `spec.rs`: a recursive OpenAPI schema node.
Field order and names follow the Rust struct; `properties` is an
association list standing for the `HashMap`. -/
inductive Schema where
  | mk (schema_type : Option String) (format : Option String)
       (properties : List (String × Schema)) (items : Option Schema)
       (reference : Option String) (required : List String)
       (nullable : Bool) (all_of : List Schema) (one_of : List Schema)
       (any_of : List Schema)

def Schema.schema_type : Schema → Option String
  | .mk t _ _ _ _ _ _ _ _ _ => t

def Schema.format : Schema → Option String
  | .mk _ f _ _ _ _ _ _ _ _ => f

def Schema.properties : Schema → List (String × Schema)
  | .mk _ _ p _ _ _ _ _ _ _ => p

def Schema.items : Schema → Option Schema
  | .mk _ _ _ i _ _ _ _ _ _ => i

def Schema.reference : Schema → Option String
  | .mk _ _ _ _ r _ _ _ _ _ => r

def Schema.required : Schema → List String
  | .mk _ _ _ _ _ req _ _ _ _ => req

def Schema.nullable : Schema → Bool
  | .mk _ _ _ _ _ _ n _ _ _ => n

def Schema.all_of : Schema → List Schema
  | .mk _ _ _ _ _ _ _ a _ _ => a

def Schema.one_of : Schema → List Schema
  | .mk _ _ _ _ _ _ _ _ o _ => o

def Schema.any_of : Schema → List Schema
  | .mk _ _ _ _ _ _ _ _ _ a => a

/-- The `Default` instance for `Schema` in `spec.rs`. -/
def Schema.defaultSchema : Schema :=
  .mk none none [] none none [] false [] [] []

/-- `prop_schema.nullable = true` (the in-place mutation in `merge_schemas`). -/
def Schema.setNullableTrue : Schema → Schema
  | .mk t f p i r req _ a o an => .mk t f p i r req true a o an

/-- Record-update helper: replace the `properties` field. -/
def Schema.withProperties : Schema → List (String × Schema) → Schema
  | .mk t f _ i r req n a o an, p => .mk t f p i r req n a o an

/-- Record-update helper: replace the `required` field. -/
def Schema.withRequired : Schema → List String → Schema
  | .mk t f p i r _ n a o an, req => .mk t f p i r req n a o an

/-- The `Components` struct of `spec.rs` (`security_schemes` is irrelevant to
resolution and omitted). -/
structure Components where
  schemas : List (String × Schema)

/-- The `OpenApiSpec` struct of `spec.rs`; only the `components` field takes
part in `resolve_ref`/`resolve_schema`, the other (metadata) fields are
omitted. -/
structure OpenApiSpec where
  components : Option Components

/-- First-match association-list lookup (the semantics of `HashMap::get`,
keys being unique in a `HashMap`). -/
def lookupSchema : List (String × Schema) → String → Option Schema
  | [], _ => none
  | (k, v) :: rest, nm => if k = nm then some v else lookupSchema rest nm

/-- `OpenApiSpec::resolve_ref` from `spec.rs`: strip leading `#/`, split on
`/`, and require exactly the three segments `components`, `schemas`, name. -/
def resolve_ref (spec : OpenApiSpec) (reference : String) : Option Schema :=
  match splitChar '/' (trimStartHashSlash reference.data) with
  | [p0, p1, p2] =>
    if p0 = "components".data ∧ p1 = "schemas".data then
      match spec.components with
      | some comps => lookupSchema comps.schemas (String.mk p2)
      | none => none
    else none
  | _ => none

/-! ## Schema resolution (`resolve_schema` / `merge_schemas`) -/

/-- First-match association-list lookup on a property map. -/
def lookupProp : List (String × Schema) → String → Option Schema
  | [], _ => none
  | (k, v) :: rest, nm => if k = nm then some v else lookupProp rest nm

/-- Left-biased choice on options (Rust `Option::or_else`). -/
def orElseO : Option α → Option α → Option α
  | some v, _ => some v
  | none, b => b

/-- One property insertion pass of `merge_schemas`: walk the resolved
member's properties, force `nullable` when requested, and keep an already
present entry (`entry(name).or_insert(prop_schema)` — first definition
wins). -/
def insertProps (make_nullable : Bool) :
    List (String × Schema) → List (String × Schema) → List (String × Schema)
  | merged, [] => merged
  | merged, (nm, p) :: rest =>
    insertProps make_nullable
      (if (lookupProp merged nm).isSome then merged
       else merged ++ [(nm, if make_nullable then p.setNullableTrue else p)])
      rest

/-- The per-member accumulation step of the `merge_schemas` loop, acting on
an already resolved member. -/
def mergeStep (make_nullable : Bool) (acc resolved : Schema) : Schema :=
  (acc.withProperties
      (insertProps make_nullable acc.properties resolved.properties)).withRequired
    (if make_nullable then acc.required else acc.required ++ resolved.required)

/-- Lexicographic comparison of strings by code point (the order Rust's
`Vec::<String>::sort` uses; UTF-8 byte order agrees with code-point order). -/
def charListLe : List Char → List Char → Bool
  | [], _ => true
  | _ :: _, [] => false
  | a :: as, b :: bs => if a = b then charListLe as bs else decide (a < b)

def strLe (a b : String) : Bool := charListLe a.data b.data

/-- Insertion sort on strings; produces the same sorted list as
`Vec::sort`. -/
def insertSorted (x : String) : List String → List String
  | [] => [x]
  | y :: ys => if strLe x y then x :: y :: ys else y :: insertSorted x ys

def sortStrings (l : List String) : List String := l.foldr insertSorted []

/-- Rust `Vec::dedup`: remove consecutive duplicates. -/
def dedupAdjacent : List String → List String
  | [] => []
  | [x] => [x]
  | x :: y :: rest =>
    if x = y then dedupAdjacent (y :: rest) else x :: dedupAdjacent (y :: rest)

/-- The accumulator `merge_schemas` starts from: an object-typed schema with
no properties and no required names. -/
def emptyMerged : Schema :=
  .mk (some "object") none [] none none [] false [] [] []

/-- `merge_schemas` of `spec.rs` after its members have been resolved: fold
the resolved members into the empty object schema, then sort and
adjacent-deduplicate `required`. -/
def merge_resolved_schemas (make_nullable : Bool) (rs : List Schema) : Schema :=
  let m := rs.foldl (mergeStep make_nullable) emptyMerged
  m.withRequired (dedupAdjacent (sortStrings m.required))

/-- Resolve every member of a composite list; `none` when any member's
resolution exhausts the depth budget. -/
def mapOption (f : α → Option β) : List α → Option (List β)
  | [] => some []
  | a :: rest =>
    match f a with
    | none => none
    | some b => (mapOption f rest).map (b :: ·)

/-- `OpenApiSpec::resolve_schema` from `spec.rs`, with an explicit recursion
budget `n` (the Rust function recurses with no cycle guard; a call of the
Rust function terminates on given input exactly when some finite budget
makes this function return `some`, and the result is then the Rust one).
A present-and-found `$ref` is followed first; otherwise `allOf`, then
`oneOf`, then `anyOf` are merged; otherwise the schema is returned
unchanged. -/
def resolve_schema : Nat → OpenApiSpec → Schema → Option Schema
  | 0, _, _ => none
  | n + 1, spec, s =>
    match s.reference.bind (fun r => resolve_ref spec r) with
    | some target => resolve_schema n spec target
    | none =>
      if s.all_of.isEmpty then
        if s.one_of.isEmpty then
          if s.any_of.isEmpty then some s
          else (mapOption (resolve_schema n spec) s.any_of).map
            (merge_resolved_schemas true)
        else (mapOption (resolve_schema n spec) s.one_of).map
          (merge_resolved_schemas true)
      else (mapOption (resolve_schema n spec) s.all_of).map
        (merge_resolved_schemas false)

/-! ## Table-name derivation (`EndpointInfo::table_name`) -/

/-- Last element of a list with a fallback (`Iterator::last` plus
`unwrap_or`). -/
def lastD (d : α) : List α → α
  | [] => d
  | a :: l => lastD a l

/-- `EndpointInfo::table_name` from `spec.rs` as a function of the endpoint
path: strip leading slashes, split on `/`, take the last segment
(`unknown` if the split were empty, which it never is), and replace `-`
with `_`. -/
def table_name (path : String) : String :=
  let name := lastD "unknown".data (splitChar '/' (path.data.dropWhile (· = '/')))
  String.mk (name.map (fun c => if c = '-' then '_' else c))

/-- Modelled from the spec: the table name is "the last non-empty
`/`-delimited segment of the path, with `-` replaced by `_`". -/
def tableNameSpec (path : String) : String :=
  let segs := (splitChar '/' path.data).filter (· ≠ [])
  String.mk ((lastD [] segs).map (fun c => if c = '-' then '_' else c))

/-! ## JSON values (`serde_json::Value` as used by `lib.rs`) -/

/-- JSON values. Numbers are modelled as integers: none of the verified
claims exercises floating-point conversion, and the embedded accessors
(`as_i64`, `as_bool`, `as_str`) behave as in `serde_json` on this
fragment. Objects are association lists in document order. -/
inductive Json where
  | null
  | bool (b : Bool)
  | num (n : Int)
  | str (s : String)
  | arr (xs : List Json)
  | obj (fields : List (String × Json))

def Json.isNull : Json → Bool
  | .null => true
  | _ => false

def Json.asBool : Json → Option Bool
  | .bool b => some b
  | _ => none

/-- `serde_json::Value::as_i64` on the integer fragment. -/
def Json.asInt : Json → Option Int
  | .num n => some n
  | _ => none

/-- `serde_json::Value::as_f64`; numeric JSON values are integers here. -/
def Json.asNum : Json → Option Int
  | .num n => some n
  | _ => none

def Json.asStr : Json → Option String
  | .str s => some s
  | _ => none

def Json.asObj : Json → Option (List (String × Json))
  | .obj fields => some fields
  | _ => none

/-- `Map::get` on a JSON object (keys unique, first match). -/
def lookupField : List (String × Json) → String → Option Json
  | [], _ => none
  | (k, v) :: rest, nm => if k = nm then some v else lookupField rest nm

/-- `serde_json`'s array-index parsing for JSON Pointer tokens: rejects a
leading `+` and leading zeros, then parses a decimal `usize`. -/
def parseIndexChars (l : List Char) : Option Nat :=
  match l with
  | [] => none
  | c :: rest =>
    if c = '+' then none
    else if c = '0' ∧ rest ≠ [] then none
    else if l.all (·.isDigit) then
      some (l.foldl (fun acc d => acc * 10 + (d.toNat - '0'.toNat)) 0)
    else none

/-- JSON Pointer token unescaping `~1` → `/` (Rust `str::replace`,
left-to-right, non-overlapping). -/
def replaceTilde1 : List Char → List Char
  | '~' :: '1' :: rest => '/' :: replaceTilde1 rest
  | c :: rest => c :: replaceTilde1 rest
  | [] => []

/-- JSON Pointer token unescaping `~0` → `~`. -/
def replaceTilde0 : List Char → List Char
  | '~' :: '0' :: rest => '~' :: replaceTilde0 rest
  | c :: rest => c :: replaceTilde0 rest
  | [] => []

/-- One JSON Pointer dereference step. -/
def pointerStep (v : Json) (token : List Char) : Option Json :=
  match v with
  | .obj fields => lookupField fields (String.mk token)
  | .arr xs => (parseIndexChars token).bind (fun i => xs.get? i)
  | _ => none

def pointerWalk : Json → List (List Char) → Option Json
  | v, [] => some v
  | v, t :: rest =>
    match pointerStep v (replaceTilde0 (replaceTilde1 t)) with
    | some v2 => pointerWalk v2 rest
    | none => none

/-- `serde_json::Value::pointer`: empty pointer addresses the whole value,
a pointer not starting with `/` addresses nothing, otherwise the
`/`-separated tokens (after unescaping) are walked. -/
def jsonPointer (v : Json) (p : String) : Option Json :=
  match p.data with
  | [] => some v
  | '/' :: _ => pointerWalk v ((splitChar '/' p.data).drop 1)
  | _ => none

/-! ## Cells, filter predicates and the adapter state (`lib.rs`) -/

/-- The host cell type as matched by `lib.rs`. Machine integers are
modelled as mathematical integers (conversion sites apply an explicit
two's-complement wrap); the floating-point kinds carry the integer
numeric model. -/
inductive Cell where
  | Bool (b : Bool)
  | I8 (n : Int)
  | I16 (n : Int)
  | I32 (n : Int)
  | I64 (n : Int)
  | F32 (n : Int)
  | F64 (n : Int)
  | Numeric (n : Int)
  | String (s : String)
  | Date (n : Int)
  | Timestamp (n : Int)
  | Timestamptz (n : Int)
  | Json (s : String)
  | Uuid (s : String)
  | Other (s : String)

/-- The host qual value: a single cell or an array of cells. -/
inductive Value where
  | Cell (c : Cell)
  | Array (cs : List Cell)

/-- A scan filter predicate as supplied by the host context. -/
structure Qual where
  field : String
  operator : String
  value : Value

/-- The `OpenApiFdw` state struct of `lib.rs` (configuration parsed from
options, pagination state and row buffer; the HTTP header list and the
parsed spec, which no verified claim touches, are omitted). -/
structure OpenApiFdw where
  base_url : String
  endpoint : String
  response_path : Option String
  object_path : Option String
  rowid_col : String
  cursor_param : String
  cursor_path : String
  page_size : Nat
  page_size_param : String
  next_cursor : Option String
  next_url : Option String
  src_rows : List Json
  src_idx : Nat

/-! ## URL construction (`OpenApiFdw::build_url`) -/

/-- The value rendering of the qual-pushdown loop in `build_url`: only
string, 32/64-bit integer and boolean cells are rendered, anything else
is skipped. -/
def cellParamValue : Cell → Option String
  | .String s => some s
  | .I32 n => some (toString n)
  | .I64 n => some (toString n)
  | .Bool b => some (if b then "true" else "false")
  | _ => none

/-- `Vec::join("&")`. -/
def joinAmp : List String → String
  | [] => ""
  | [x] => x
  | x :: rest => x ++ "&" ++ joinAmp rest

/-- The non-pushdown tail of `build_url`: reuse a captured next-page URL
verbatim, otherwise compose base and endpoint with cursor, page-size and
remaining equality-filter query parameters in that order. -/
def listUrl (st : OpenApiFdw) (quals : List Qual) : String :=
  match st.next_url with
  | some u => u
  | none =>
    let base := st.base_url ++ st.endpoint
    let params :=
      (match st.next_cursor with
       | some c => [st.cursor_param ++ "=" ++ c]
       | none => []) ++
      (if 0 < st.page_size ∧ st.page_size_param ≠ "" then
        [st.page_size_param ++ "=" ++ toString st.page_size]
       else []) ++
      quals.filterMap (fun q =>
        if q.field == st.rowid_col then none
        else if q.operator == "=" then
          match q.value with
          | .Cell c => (cellParamValue c).map (fun v => q.field ++ "=" ++ v)
          | _ => none
        else none)
    if params.isEmpty then base else base ++ "?" ++ joinAmp params

/-- `OpenApiFdw::build_url` from `lib.rs`: the first filter predicate whose
field matches the rowid column case-insensitively with operator `=` is
probed for identifier pushdown; if its value is a string cell the
single-resource URL is returned, otherwise the list URL is built. -/
def build_url (st : OpenApiFdw) (quals : List Qual) : String :=
  match quals.find? (fun q =>
      toLowerString q.field == toLowerString st.rowid_col && q.operator == "=") with
  | some q =>
    match q.value with
    | .Cell (.String id) => st.base_url ++ st.endpoint ++ "/" ++ id
    | _ => listUrl st quals
  | none => listUrl st quals

/-! ## Row extraction and pagination (`extract_data` / `handle_pagination`) -/

/-- The auto-detection probe of `extract_data`: try the wrapper keys in
order; an array value is the row sequence, an object value a one-row
sequence, any other value (or an absent key) moves to the next key. -/
def probeKeys (fields : List (String × Json)) : List String → Option (List Json)
  | [] => none
  | k :: rest =>
    match lookupField fields k with
    | some (.arr xs) => some xs
    | some (.obj o) => some [Json.obj o]
    | _ => probeKeys fields rest

/-- `OpenApiFdw::extract_data` from `lib.rs` (error strings abbreviated). -/
def extract_data (st : OpenApiFdw) (resp : Json) : Except String (List Json) :=
  match st.response_path with
  | some path =>
    match jsonPointer resp path with
    | none => .error "Response path not found in response"
    | some data =>
      match data with
      | .arr xs => .ok xs
      | .obj o => .ok [Json.obj o]
      | _ => .error "Response data is not an array or object"
  | none =>
    match resp with
    | .arr xs => .ok xs
    | .obj fields =>
      match probeKeys fields ["data", "results", "items", "records", "entries", "features"] with
      | some rows => .ok rows
      | none => .ok [resp]
    | _ => .error "Unable to extract data from response"

/-- One probe of the pagination loops: dereference the pointer path and
accept only a non-empty string value. -/
def nonEmptyStrAt (resp : Json) (path : String) : Option String :=
  match jsonPointer resp path with
  | some (.str s) => if s.data = [] then none else some s
  | _ => none

def nextUrlPaths : List String :=
  ["/meta/pagination/next", "/pagination/next", "/links/next", "/next",
   "/_links/next/href"]

def nextCursorPaths : List String :=
  ["/meta/pagination/next_cursor", "/pagination/next_cursor", "/next_cursor",
   "/cursor"]

/-- The `has_more` probe of `handle_pagination`: the first PRESENT pointer
value wins (even a non-boolean one), then it is read as a boolean with
default `false`. -/
def hasMoreFlag (resp : Json) : Bool :=
  ((orElseO (jsonPointer resp "/meta/pagination/has_more")
      (orElseO (jsonPointer resp "/has_more")
        (jsonPointer resp "/pagination/has_more"))).bind Json.asBool).getD false

/-- `OpenApiFdw::handle_pagination` from `lib.rs`: both pagination fields
are reset first and then at most one is set (each exit path below spells
out both fields), trying in order the configured cursor path, the next-URL
pointer probes (only on an object body), and the `has_more`/next-cursor
probes. -/
def handle_pagination (st : OpenApiFdw) (resp : Json) : OpenApiFdw :=
  match (if st.cursor_path = "" then none else nonEmptyStrAt resp st.cursor_path) with
  | some s => { st with next_cursor := some s, next_url := none }
  | none =>
    if (Json.asObj resp).isSome then
      match nextUrlPaths.findSome? (nonEmptyStrAt resp) with
      | some u => { st with next_cursor := none, next_url := some u }
      | none =>
        if hasMoreFlag resp then
          match nextCursorPaths.findSome? (nonEmptyStrAt resp) with
          | some s => { st with next_cursor := some s, next_url := none }
          | none => { st with next_cursor := none, next_url := none }
        else { st with next_cursor := none, next_url := none }
    else { st with next_cursor := none, next_url := none }

/-! ## Requests (`OpenApiFdw::make_request`) -/

/-- Modelled from the spec: the host transport's `error_for_status`
capability is not part of this repository's sources; per the spec it maps
any non-2xx status to an error carrying status and body context. -/
def error_for_status (status_code : Nat) : Except String Unit :=
  if 200 ≤ status_code ∧ status_code < 300 then .ok () else .error "http status error"

/-- The transport response as `make_request` consumes it: the status code
and the JSON parse of the body (`none` models a body rejected by
`serde_json::from_str`). -/
structure HttpResponse where
  status_code : Nat
  body : Option Json

/-- `OpenApiFdw::make_request` from `lib.rs`, parameterised by the
transport response for the built URL: status 404 succeeds with an empty
row buffer and cleared pagination, any other non-2xx status is an error,
otherwise rows are extracted and pagination advanced. -/
def make_request (st : OpenApiFdw) (resp : HttpResponse) : Except String OpenApiFdw :=
  if resp.status_code = 404 then
    .ok { st with src_rows := [], src_idx := 0, next_cursor := none, next_url := none }
  else
    match error_for_status resp.status_code with
    | .error e => .error e
    | .ok _ =>
      match resp.body with
      | none => .error "invalid JSON body"
      | some j =>
        match extract_data st j with
        | .error e => .error e
        | .ok rows => .ok (handle_pagination { st with src_rows := rows, src_idx := 0 } j)

/-! ## Cell mapping (`json_to_cell` / `to_camel_case`) -/

def camelAux : List Char → Bool → List Char
  | [], _ => []
  | c :: rest, cap =>
    if c = '_' then camelAux rest true
    else if cap then Char.toUpper c :: camelAux rest false
    else c :: camelAux rest false

/-- `to_camel_case` from `lib.rs`: drop underscores and capitalise the
following character. -/
def to_camel_case (s : String) : String := String.mk (camelAux s.data false)

/-- The host column type tags matched by `json_to_cell`; `Other` stands
for every remaining tag, all of which hit the catch-all arm. -/
inductive TypeOid where
  | Bool
  | I8
  | I16
  | I32
  | I64
  | F32
  | F64
  | Numeric
  | String
  | Date
  | Timestamp
  | Timestamptz
  | Json
  | Uuid
  | Other

/-- A target column descriptor as supplied by the host context. -/
structure Column where
  name : String
  type_oid : TypeOid

/-- JSON string escaping for re-serialisation (the escapes the verified
claims can meet; no claim inspects serialised text). -/
def escapeChars : List Char → List Char
  | [] => []
  | c :: rest =>
    (if c = '"' then ['\\', '"']
     else if c = '\\' then ['\\', '\\']
     else if c = '\n' then ['\\', 'n']
     else if c = '\t' then ['\\', 't']
     else if c = '\r' then ['\\', 'r']
     else [c]) ++ escapeChars rest

def quoteJson (s : String) : String :=
  "\"" ++ String.mk (escapeChars s.data) ++ "\""

def joinComma : List String → String
  | [] => ""
  | [x] => x
  | x :: rest => x ++ "," ++ joinComma rest

/-! `serde_json::Value::to_string` (compact form) on the embedded JSON
model. -/

mutual

/-- Compact JSON re-serialisation of one value. -/
def jsonToString : Json → String
  | .null => "null"
  | .bool b => if b then "true" else "false"
  | .num n => toString n
  | .str s => quoteJson s
  | .arr xs => "[" ++ joinComma (jsonListStrings xs) ++ "]"
  | .obj fields => "\x7b" ++ joinComma (jsonFieldStrings fields) ++ "\x7d"

/-- Serialisation of an array's elements. -/
def jsonListStrings : List Json → List String
  | [] => []
  | j :: rest => jsonToString j :: jsonListStrings rest

/-- Serialisation of an object's fields. -/
def jsonFieldStrings : List (String × Json) → List String
  | [] => []
  | (k, v) :: rest => (quoteJson k ++ ":" ++ jsonToString v) :: jsonFieldStrings rest

end

/-- Case-insensitive key scan of `json_to_cell` (first matching key in
document order). -/
def findCaseInsensitive (fields : List (String × Json)) (nm : String) : Option Json :=
  (fields.find? (fun kv => toLowerString kv.1 == toLowerString nm)).map (·.2)

/-- Two's-complement wrap of a Rust `as` cast to a `w`-bit signed integer. -/
def wrapCast (w : Nat) (n : Int) : Int :=
  (n + 2 ^ (w - 1)) % 2 ^ w - 2 ^ (w - 1)

/-- `OpenApiFdw::json_to_cell` from `lib.rs`, parameterised by the host
time capability `parse_from_rfc3339` (an RFC 3339 string to the host's
epoch integer): `attrs` returns the whole row as JSON; the source value is
found by exact, camel-case or case-insensitive key match; a missing or
null value is "no cell"; otherwise conversion dispatches on the column
type tag. -/
def json_to_cell (parse_from_rfc3339 : String → Except String Int)
    (src_row : Json) (tgt_col : Column) : Except String (Option Cell) :=
  if tgt_col.name == "attrs" then .ok (some (.Json (jsonToString src_row)))
  else
    match (Json.asObj src_row).bind (fun obj =>
        orElseO (lookupField obj tgt_col.name)
          (orElseO (lookupField obj (to_camel_case tgt_col.name))
            (findCaseInsensitive obj tgt_col.name))) with
    | some v =>
      if v.isNull then .ok none
      else
        match tgt_col.type_oid with
        | .Bool => .ok ((Json.asBool v).map Cell.Bool)
        | .I8 => .ok ((Json.asInt v).map (fun n => Cell.I8 (wrapCast 8 n)))
        | .I16 => .ok ((Json.asInt v).map (fun n => Cell.I16 (wrapCast 16 n)))
        | .I32 => .ok ((Json.asInt v).map (fun n => Cell.I32 (wrapCast 32 n)))
        | .I64 => .ok ((Json.asInt v).map Cell.I64)
        | .F32 => .ok ((Json.asNum v).map Cell.F32)
        | .F64 => .ok ((Json.asNum v).map Cell.F64)
        | .Numeric => .ok ((Json.asNum v).map Cell.Numeric)
        | .String =>
          match v with
          | .str s => .ok (some (.String s))
          | _ => .ok (some (.String (jsonToString v)))
        | .Date =>
          match v with
          | .str s =>
            (parse_from_rfc3339 s).map (fun ts => some (.Date (Int.tdiv ts 1000000)))
          | _ => .ok none
        | .Timestamp =>
          match v with
          | .str s => (parse_from_rfc3339 s).map (fun ts => some (.Timestamp ts))
          | _ => .ok none
        | .Timestamptz =>
          match v with
          | .str s => (parse_from_rfc3339 s).map (fun ts => some (.Timestamptz ts))
          | _ => .ok none
        | .Json => .ok (some (.Json (jsonToString v)))
        | .Uuid => .ok ((Json.asStr v).map Cell.String)
        | .Other => .ok (some (.Json (jsonToString v)))
    | none => .ok none

/-- Modelled from the spec: truncation of a host timestamp to a day
boundary, in the host time capability's sub-second (microsecond) unit —
what the spec asserts the date conversion performs. -/
def truncToDayBoundary (ts : Int) : Int := ts - ts % 86400000000

/-! ## Concrete instances and auxiliary definitions used by the claim proofs -/

/-- The per-property marking of `merge_schemas`. -/
def markNullable (mn : Bool) (p : Schema) : Schema :=
  if mn then p.setNullableTrue else p

-- concrete inputs for the resolution claims

def strFieldSchema : Schema := .mk (some "string") none [] none none [] false [] [] []

def intFieldSchema : Schema := .mk (some "integer") none [] none none [] false [] [] []

def boolFieldSchema : Schema := .mk (some "boolean") none [] none none [] false [] [] []

def emptySpec : OpenApiSpec := ⟨none⟩

def s1cex : Schema := .mk none none [] none (some "#/x") [] false [] [] []

def userSchema : Schema :=
  .mk (some "object") none [("p", strFieldSchema)] none none [] false [] [] []

def spec1b : OpenApiSpec := ⟨some ⟨[("User", userSchema)]⟩⟩

def sNoHash : Schema :=
  .mk none none [] none (some "components/schemas/User") [] false [] [] []

-- C2: self-referential schema

def cyclicSchema : Schema :=
  .mk none none [] none (some "#/components/schemas/Node") [] false [] [] []

def cyclicSpec : OpenApiSpec := ⟨some ⟨[("Node", cyclicSchema)]⟩⟩

-- C3: allOf merging

def memberA : Schema :=
  .mk (some "object") none [("id", strFieldSchema), ("shared", intFieldSchema)]
    none none ["id"] false [] [] []

def memberB : Schema :=
  .mk (some "object") none [("shared", boolFieldSchema), ("email", strFieldSchema)]
    none none ["email"] false [] [] []

def allOfSchema : Schema := .mk none none [] none none [] false [memberA, memberB] [] []

def xTargetSchema : Schema :=
  .mk (some "object") none [("b", strFieldSchema)] none none [] false [] [] []

def specC3 : OpenApiSpec := ⟨some ⟨[("X", xTargetSchema)]⟩⟩

def refAndAllOfSchema : Schema :=
  .mk none none [] none (some "#/components/schemas/X") [] false [memberA] [] []

-- C4: oneOf / anyOf merging

def oneOfWithAllOfSchema : Schema :=
  .mk none none [] none none [] false [memberA] [Schema.defaultSchema] []

def oneOfSchema : Schema := .mk none none [] none none [] false [] [memberA, memberB] []

-- C5 / C10: build_url

def stC5 : OpenApiFdw :=
  { base_url := "http://api", endpoint := "/users", response_path := none,
    object_path := none, rowid_col := "id", cursor_param := "after",
    cursor_path := "", page_size := 0, page_size_param := "limit",
    next_cursor := none, next_url := none, src_rows := [], src_idx := 0 }

def qualIntId : Qual := ⟨"id", "=", .Cell (.I32 7)⟩

def qualStrId : Qual := ⟨"id", "=", .Cell (.String "xyz")⟩

def stC10 : OpenApiFdw :=
  { base_url := "http://api", endpoint := "/items", response_path := none,
    object_path := none, rowid_col := "id", cursor_param := "after",
    cursor_path := "", page_size := 50, page_size_param := "limit",
    next_cursor := none, next_url := none, src_rows := [], src_idx := 0 }

def stC6 : OpenApiFdw :=
  { base_url := "http://api", endpoint := "/users", response_path := none,
    object_path := none, rowid_col := "id", cursor_param := "after",
    cursor_path := "", page_size := 100, page_size_param := "limit",
    next_cursor := some "tok", next_url := some "http://api/users?page=2",
    src_rows := [.obj []], src_idx := 1 }

-- C9: date conversion

def parseStub : String → Except String Int := fun _ => .ok 90000000000

def dateColumn : Column := ⟨"updated_at", .Date⟩

def rowC9 : Json := .obj [("updated_at", .str "1970-01-02T01:00:00Z")]

/-- Modify the last element of a list. -/
def modLast (f : α → α) : List α → List α
  | [] => []
  | [a] => [f a]
  | a :: rest => a :: modLast f rest

/-! ## Lemmas and claim theorems -/

@[simp] theorem markNullable_false (p : Schema) : markNullable false p = p := rfl

@[simp] theorem setNullableTrue_nullable (p : Schema) : p.setNullableTrue.nullable = true := by
  cases p; rfl

@[simp] theorem properties_mk (t f p i r req n a o an) :
    (Schema.mk t f p i r req n a o an).properties = p := rfl

@[simp] theorem required_mk (t f p i r req n a o an) :
    (Schema.mk t f p i r req n a o an).required = req := rfl

@[simp] theorem reference_mk (t f p i r req n a o an) :
    (Schema.mk t f p i r req n a o an).reference = r := rfl

@[simp] theorem nullable_mk (t f p i r req n a o an) :
    (Schema.mk t f p i r req n a o an).nullable = n := rfl

@[simp] theorem all_of_mk (t f p i r req n a o an) :
    (Schema.mk t f p i r req n a o an).all_of = a := rfl

@[simp] theorem one_of_mk (t f p i r req n a o an) :
    (Schema.mk t f p i r req n a o an).one_of = o := rfl

@[simp] theorem any_of_mk (t f p i r req n a o an) :
    (Schema.mk t f p i r req n a o an).any_of = an := rfl

@[simp] theorem orElseO_some (v : α) (b : Option α) : orElseO (some v) b = some v := rfl

@[simp] theorem orElseO_none (b : Option α) : orElseO none b = b := rfl

@[simp] theorem orElseO_none_right (a : Option α) : orElseO a none = a := by
  cases a <;> rfl

theorem orElseO_assoc (a b c : Option α) :
    orElseO (orElseO a b) c = orElseO a (orElseO b c) := by
  cases a <;> rfl

theorem map_orElseO (f : α → β) (a b : Option α) :
    (orElseO a b).map f = orElseO (a.map f) (b.map f) := by
  cases a <;> rfl

theorem findSome?_cons_eq_orElseO (f : α → Option β) (a : α) (l : List α) :
    List.findSome? f (a :: l) = orElseO (f a) (List.findSome? f l) := by
  cases h : f a <;> simp [List.findSome?_cons, h]

theorem lookupProp_append (l1 l2 : List (String × Schema)) (nm : String) :
    lookupProp (l1 ++ l2) nm = orElseO (lookupProp l1 nm) (lookupProp l2 nm) := by
  induction l1 with
  | nil => simp [lookupProp]
  | cons kv rest ih =>
    obtain ⟨k, v⟩ := kv
    by_cases h : k = nm <;> simp [lookupProp, h, ih]

@[simp] theorem withProperties_properties (m : Schema) (ps : List (String × Schema)) :
    (m.withProperties ps).properties = ps := by cases m; rfl

@[simp] theorem withProperties_required (m : Schema) (ps : List (String × Schema)) :
    (m.withProperties ps).required = m.required := by cases m; rfl

@[simp] theorem withRequired_properties (m : Schema) (req : List String) :
    (m.withRequired req).properties = m.properties := by cases m; rfl

@[simp] theorem withRequired_required (m : Schema) (req : List String) :
    (m.withRequired req).required = req := by cases m; rfl

theorem lookupProp_insertProps (mn : Bool) (qs : List (String × Schema)) :
    ∀ merged nm, lookupProp (insertProps mn merged qs) nm =
      orElseO (lookupProp merged nm) ((lookupProp qs nm).map (markNullable mn)) := by
  induction qs with
  | nil => intro merged nm; simp [insertProps, lookupProp]
  | cons kv rest ih =>
    intro merged nm
    obtain ⟨k, p⟩ := kv
    rw [insertProps, ih]
    by_cases hk : k = nm
    · subst hk
      cases hm : lookupProp merged k with
      | some v => simp [hm, lookupProp]
      | none => simp [hm, lookupProp, lookupProp_append, markNullable]
    · cases hm : lookupProp merged k with
      | some v => simp [hm, lookupProp, hk]
      | none => simp [hm, lookupProp, lookupProp_append, hk]

theorem mergeStep_properties (mn : Bool) (acc r : Schema) :
    (mergeStep mn acc r).properties = insertProps mn acc.properties r.properties := by
  simp [mergeStep]

theorem mergeStep_required (mn : Bool) (acc r : Schema) :
    (mergeStep mn acc r).required =
      if mn then acc.required else acc.required ++ r.required := by
  simp [mergeStep]

theorem lookupProp_mergeFold (mn : Bool) (rs : List Schema) :
    ∀ acc nm, lookupProp (rs.foldl (mergeStep mn) acc).properties nm =
      orElseO (lookupProp acc.properties nm)
        ((rs.findSome? (fun r => lookupProp r.properties nm)).map (markNullable mn)) := by
  induction rs with
  | nil => intro acc nm; simp [List.findSome?]
  | cons r rest ih =>
    intro acc nm
    rw [List.foldl_cons, ih, mergeStep_properties, lookupProp_insertProps,
      orElseO_assoc, ← map_orElseO, findSome?_cons_eq_orElseO]

theorem mergeFold_required_true (rs : List Schema) :
    ∀ acc, (rs.foldl (mergeStep true) acc).required = acc.required := by
  induction rs with
  | nil => intro acc; rfl
  | cons r rest ih =>
    intro acc
    rw [List.foldl_cons, ih, mergeStep_required]
    rfl

theorem mergeFold_required_false (rs : List Schema) :
    ∀ acc, (rs.foldl (mergeStep false) acc).required =
      acc.required ++ (rs.map Schema.required).flatten := by
  induction rs with
  | nil => intro acc; simp
  | cons r rest ih =>
    intro acc
    rw [List.foldl_cons, ih, mergeStep_required]
    simp

theorem mem_insertSorted (x y : String) (l : List String) :
    y ∈ insertSorted x l ↔ y = x ∨ y ∈ l := by
  induction l with
  | nil => simp [insertSorted]
  | cons z rest ih =>
    by_cases h : strLe x z
    · simp [insertSorted, h]
    · simp [insertSorted, h, ih]
      tauto

theorem mem_sortStrings (y : String) (l : List String) :
    y ∈ sortStrings l ↔ y ∈ l := by
  induction l with
  | nil => simp [sortStrings]
  | cons x rest ih =>
    show y ∈ insertSorted x (sortStrings rest) ↔ _
    rw [mem_insertSorted, ih]
    simp

theorem mem_dedupAdjacent (y : String) (l : List String) :
    y ∈ dedupAdjacent l ↔ y ∈ l := by
  induction l with
  | nil => simp [dedupAdjacent]
  | cons x rest ih =>
    cases rest with
    | nil => simp [dedupAdjacent]
    | cons z rest2 =>
      by_cases h : x = z
      · subst h
        rw [dedupAdjacent]
        simp [ih, List.mem_cons]
      · rw [dedupAdjacent]
        simp only [if_neg h]
        simp [ih]

theorem merge_resolved_lookupProp (mn : Bool) (rs : List Schema) (nm : String) :
    lookupProp (merge_resolved_schemas mn rs).properties nm =
      (rs.findSome? (fun r => lookupProp r.properties nm)).map (markNullable mn) := by
  unfold merge_resolved_schemas
  rw [withRequired_properties, lookupProp_mergeFold]
  simp [emptyMerged, lookupProp]

theorem merge_resolved_required_true (rs : List Schema) :
    (merge_resolved_schemas true rs).required = [] := by
  unfold merge_resolved_schemas
  rw [withRequired_required, mergeFold_required_true]
  rfl

theorem merge_resolved_required_false_mem (rs : List Schema) (nm : String) :
    nm ∈ (merge_resolved_schemas false rs).required ↔ ∃ r ∈ rs, nm ∈ r.required := by
  unfold merge_resolved_schemas
  rw [withRequired_required, mem_dedupAdjacent, mem_sortStrings, mergeFold_required_false]
  simp [emptyMerged]

theorem merge_resolved_nullable (rs : List Schema) (nm : String) (p : Schema)
    (h : lookupProp (merge_resolved_schemas true rs).properties nm = some p) :
    p.nullable = true := by
  rw [merge_resolved_lookupProp] at h
  cases hf : rs.findSome? (fun r => lookupProp r.properties nm) with
  | none => rw [hf] at h; simp at h
  | some q =>
    rw [hf] at h
    simp [markNullable] at h
    subst h
    simp

theorem map_markNullable_false (o : Option Schema) : o.map (markNullable false) = o := by
  cases o <;> rfl

/-- Unfolding of `resolve_schema` at positive budget when the `$ref` (if
any) is not found: resolution falls through to the composite lists. -/
theorem resolve_schema_succ_no_ref (spec : OpenApiSpec) (s : Schema) (n : Nat)
    (href : ∀ r, s.reference = some r → resolve_ref spec r = none) :
    resolve_schema (n + 1) spec s =
      (if s.all_of.isEmpty then
        if s.one_of.isEmpty then
          if s.any_of.isEmpty then some s
          else (mapOption (resolve_schema n spec) s.any_of).map (merge_resolved_schemas true)
        else (mapOption (resolve_schema n spec) s.one_of).map (merge_resolved_schemas true)
      else (mapOption (resolve_schema n spec) s.all_of).map (merge_resolved_schemas false)) := by
  have hbind : s.reference.bind (fun r => resolve_ref spec r) = none := by
    cases hr : s.reference with
    | none => rfl
    | some r => simpa using href r hr
  simp only [resolve_schema, hbind]

/-- Claim C1 counterexample: (i) with no components, resolving a schema whose
reference is the unsupported form `#/x` returns the schema unchanged —
still carrying the unresolved reference, not an empty object schema; and
(ii) a reference WITHOUT the leading `#/` (`components/schemas/User`) is
nevertheless found, so the exact shape is not the only accepted one. -/
theorem resolve_ref_exact_form_cex :
    resolve_schema 1 emptySpec s1cex = some s1cex
    ∧ s1cex.reference = some "#/x"
    ∧ resolve_schema 2 spec1b sNoHash = some userSchema
    ∧ userSchema.properties ≠ [] := by
  refine ⟨rfl, rfl, rfl, ?_⟩
  simp [userSchema]

/-- Claim C1 (amended): when the `$ref` of a schema is absent from the lookup (any
unsupported form or missing name) and the schema has no composite lists,
`resolve_schema` returns the schema unchanged, unresolved `$ref` included. -/
theorem resolve_schema_unfound_ref_unchanged (spec : OpenApiSpec) (s : Schema) (n : Nat)
    (href : ∀ r, s.reference = some r → resolve_ref spec r = none)
    (hall : s.all_of = []) (hone : s.one_of = []) (hany : s.any_of = []) :
    resolve_schema (n + 1) spec s = some s := by
  rw [resolve_schema_succ_no_ref spec s n href, hall, hone, hany]
  simp

theorem resolve_schema_unfound_ref_unchanged_witness :
    s1cex.reference = some "#/x" ∧ resolve_schema 5 emptySpec s1cex = some s1cex :=
  ⟨rfl, resolve_schema_unfound_ref_unchanged emptySpec s1cex 4
    (fun r hr => by simp [s1cex] at hr; subst hr; rfl) rfl rfl rfl⟩

/-- Claim C2: the code has NO visited-reference set — on the self-referential
component schema `Node` (whose `$ref` points back to itself),
`resolve_schema` needs more recursion depth than any finite budget, i.e.
the Rust recursion never terminates. -/
theorem resolve_schema_self_reference_diverges :
    ∀ n, resolve_schema n cyclicSpec cyclicSchema = none := by
  intro n
  induction n with
  | zero => rfl
  | succ n ih => exact ih

/-- Claim C3 counterexample: a schema with a non-empty `allOf` AND a resolvable
`$ref` is resolved through the reference alone — the `allOf` members are
ignored, so the result lacks the member property `a` and the member's
required name, contradicting the claim's unconditional quantification. -/
theorem resolve_schema_allof_ref_precedence_cex :
    resolve_schema 3 specC3 refAndAllOfSchema = some xTargetSchema
    ∧ refAndAllOfSchema.all_of = [memberA]
    ∧ lookupProp xTargetSchema.properties "id" = none
    ∧ "id" ∈ memberA.required
    ∧ xTargetSchema.required = [] := by
  refine ⟨rfl, rfl, rfl, ?_, rfl⟩
  simp [memberA]

/-- Claim C3 (amended): for a schema with non-empty `allOf` whose `$ref` (if any)
is not found, `resolve_schema` merges the resolved members: on a property
name the FIRST member defining it wins, and the merged `required` is the
deduplicated union of the members' `required` names. -/
theorem resolve_schema_allof_first_wins (spec : OpenApiSpec) (s : Schema) (n : Nat)
    (rs : List Schema)
    (href : ∀ r, s.reference = some r → resolve_ref spec r = none)
    (hall : s.all_of.isEmpty = false)
    (hres : mapOption (resolve_schema n spec) s.all_of = some rs) :
    resolve_schema (n + 1) spec s = some (merge_resolved_schemas false rs)
    ∧ (∀ nm, lookupProp (merge_resolved_schemas false rs).properties nm
        = rs.findSome? (fun r => lookupProp r.properties nm))
    ∧ (∀ nm, nm ∈ (merge_resolved_schemas false rs).required ↔
        ∃ r ∈ rs, nm ∈ r.required) := by
  refine ⟨?_, ?_, fun nm => merge_resolved_required_false_mem rs nm⟩
  · rw [resolve_schema_succ_no_ref spec s n href, hall]
    simp [hres]
  · intro nm
    rw [merge_resolved_lookupProp, map_markNullable_false]

theorem resolve_schema_allof_first_wins_witness :
    resolve_schema 2 emptySpec allOfSchema
      = some (merge_resolved_schemas false [memberA, memberB])
    ∧ lookupProp (merge_resolved_schemas false [memberA, memberB]).properties "shared"
      = some intFieldSchema
    ∧ ("email" ∈ (merge_resolved_schemas false [memberA, memberB]).required ↔
        ∃ r ∈ [memberA, memberB], "email" ∈ r.required) := by
  have h := resolve_schema_allof_first_wins emptySpec allOfSchema 1 [memberA, memberB]
    (fun r hr => by simp [allOfSchema] at hr) rfl rfl
  exact ⟨h.1, (h.2.1 "shared").trans rfl, h.2.2 "email"⟩

/-- Claim C4 counterexample: a schema with BOTH a non-empty `allOf` and a
non-empty `oneOf` is resolved through the `allOf` branch: the result keeps
the required name `id` (the claim demands an empty required set) and its
property `shared` stays non-nullable (the claim demands nullable). -/
theorem resolve_schema_oneof_allof_precedence_cex :
    (resolve_schema 2 emptySpec oneOfWithAllOfSchema).map Schema.required = some ["id"]
    ∧ ((resolve_schema 2 emptySpec oneOfWithAllOfSchema).bind
        (fun m => lookupProp m.properties "shared")).map Schema.nullable = some false
    ∧ oneOfWithAllOfSchema.one_of ≠ []
    ∧ some ["id"] ≠ some ([] : List String) := by
  refine ⟨rfl, rfl, ?_, ?_⟩
  · simp [oneOfWithAllOfSchema]
  · simp

/-- Claim C4 (amended): for a schema whose `oneOf` (or, if that is empty,
`anyOf`) is non-empty, whose `allOf` is empty and whose `$ref` (if any) is
not found, `resolve_schema` merges the resolved members, every property of
the result has `nullable = true`, and the result's `required` is empty. -/
theorem resolve_schema_oneof_anyof_nullable (spec : OpenApiSpec) (s : Schema) (n : Nat)
    (rs : List Schema)
    (href : ∀ r, s.reference = some r → resolve_ref spec r = none)
    (hall : s.all_of.isEmpty = true)
    (hne : (if s.one_of.isEmpty then s.any_of else s.one_of).isEmpty = false)
    (hres : mapOption (resolve_schema n spec)
        (if s.one_of.isEmpty then s.any_of else s.one_of) = some rs) :
    resolve_schema (n + 1) spec s = some (merge_resolved_schemas true rs)
    ∧ (merge_resolved_schemas true rs).required = []
    ∧ ∀ nm p, lookupProp (merge_resolved_schemas true rs).properties nm = some p →
        p.nullable = true := by
  refine ⟨?_, merge_resolved_required_true rs, fun nm p h => merge_resolved_nullable rs nm p h⟩
  rw [resolve_schema_succ_no_ref spec s n href, hall]
  by_cases hone : s.one_of.isEmpty
  · rw [if_pos hone] at hres hne
    simp [hone, hne, hres]
  · rw [if_neg hone] at hres hne
    simp [hone, hres]

theorem resolve_schema_oneof_anyof_nullable_witness :
    resolve_schema 2 emptySpec oneOfSchema
      = some (merge_resolved_schemas true [memberA, memberB])
    ∧ (merge_resolved_schemas true [memberA, memberB]).required = []
    ∧ strFieldSchema.setNullableTrue.nullable = true := by
  have h := resolve_schema_oneof_anyof_nullable emptySpec oneOfSchema 1 [memberA, memberB]
    (fun r hr => by simp [oneOfSchema] at hr) rfl rfl rfl
  exact ⟨h.1, h.2.1, h.2.2 "id" strFieldSchema.setNullableTrue rfl⟩

/-- Claim C5 counterexample: the filter set contains a string equality on the
rowid column, yet no pushdown happens — `find` selects the FIRST
(field, operator) match, here the integer-valued one, and then gives up on
pushdown entirely, producing the list URL. -/
theorem build_url_string_rowid_not_always_pushdown_cex :
    build_url stC5 [qualIntId, qualStrId] = "http://api/users"
    ∧ qualStrId.field = stC5.rowid_col
    ∧ qualStrId.operator = "="
    ∧ qualStrId.value = Value.Cell (Cell.String "xyz")
    ∧ "http://api/users" ≠ "http://api/users/xyz" := by
  refine ⟨rfl, rfl, rfl, rfl, by decide⟩

/-- Claim C5 (amended): if the FIRST predicate matching the rowid column
case-insensitively with operator `=` carries a string value `id`, the
request URL is exactly base, endpoint, slash, id — with no query string at
all. -/
theorem build_url_first_rowid_string_pushdown (st : OpenApiFdw) (quals : List Qual)
    (q : Qual) (id : String)
    (hfind : quals.find? (fun q =>
        toLowerString q.field == toLowerString st.rowid_col && q.operator == "=")
      = some q)
    (hval : q.value = Value.Cell (Cell.String id)) :
    build_url st quals = st.base_url ++ st.endpoint ++ "/" ++ id := by
  simp [build_url, hfind, hval]

theorem build_url_first_rowid_string_pushdown_witness :
    build_url stC5 [qualStrId] = "http://api/users/xyz" := by
  have h := build_url_first_rowid_string_pushdown stC5 [qualStrId] qualStrId "xyz" rfl rfl
  exact h.trans rfl

/-- Claim C10: a single equality filter on the rowid column (exact field name)
with a 32- or 64-bit integer value leaves no trace in the URL: the result
is the same URL as with no filters at all (no pushdown path, no query
parameter). -/
theorem build_url_integer_rowid_no_trace (st : OpenApiFdw) (q : Qual) (v : Int)
    (hf : q.field = st.rowid_col) (hop : q.operator = "=")
    (hv : q.value = Value.Cell (Cell.I32 v) ∨ q.value = Value.Cell (Cell.I64 v)) :
    build_url st [q] = build_url st [] := by
  have hfind : [q].find? (fun q =>
      toLowerString q.field == toLowerString st.rowid_col && q.operator == "=") = some q := by
    simp [List.find?, hf, hop]
  have hfilter : listUrl st [q] = listUrl st [] := by
    unfold listUrl
    cases hnu : st.next_url with
    | some u => rfl
    | none => simp [List.filterMap, hf]
  rcases hv with h | h <;> simp [build_url, hfind, h, hfilter]

theorem build_url_integer_rowid_no_trace_witness :
    build_url stC10 [⟨"id", "=", .Cell (.I32 7)⟩] = build_url stC10 []
    ∧ build_url stC10 [] = "http://api/items?limit=50" := by
  refine ⟨?_, rfl⟩
  exact build_url_integer_rowid_no_trace stC10 ⟨"id", "=", .Cell (.I32 7)⟩ 7 rfl rfl (Or.inl rfl)

/-- Claim C6: a transport response with status 404 makes `make_request` succeed
with an empty row buffer, a reset read index and both pagination fields
cleared, signalling end of results. -/
theorem make_request_404_empty_success (st : OpenApiFdw) (resp : HttpResponse)
    (h : resp.status_code = 404) :
    make_request st resp =
      .ok { st with src_rows := [], src_idx := 0, next_cursor := none, next_url := none } := by
  simp [make_request, h]

theorem make_request_404_empty_success_witness :
    make_request stC6 ⟨404, none⟩ =
      .ok { stC6 with src_rows := [], src_idx := 0, next_cursor := none, next_url := none } :=
  make_request_404_empty_success stC6 ⟨404, none⟩ rfl

/-- Claim C7: after `handle_pagination` at most one of `next_cursor` and
`next_url` is set — every branch starts from both-absent and sets at most
one of them. -/
theorem handle_pagination_mutual_exclusion (st : OpenApiFdw) (resp : Json) :
    (handle_pagination st resp).next_cursor = none
    ∨ (handle_pagination st resp).next_url = none := by
  unfold handle_pagination
  split
  · exact Or.inr rfl
  · split
    · split
      · exact Or.inl rfl
      · split
        · split
          · exact Or.inr rfl
          · exact Or.inl rfl
        · exact Or.inl rfl
    · exact Or.inl rfl

/-- Claim C9 counterexample: with the host time capability returning the
timestamp 90000000000 (01:00 on day two, in microseconds), the date cell
is 90000 — the timestamp divided by 1000000 — which is not the truncation
of the timestamp to a day boundary under any unit reading (microseconds
86400000000, seconds 86400, or whole days 1). -/
theorem json_to_cell_date_not_day_truncation_cex :
    json_to_cell parseStub rowC9 dateColumn = .ok (some (.Date 90000))
    ∧ truncToDayBoundary 90000000000 = 86400000000
    ∧ (90000 : Int) ≠ 86400000000
    ∧ (90000 : Int) ≠ 86400
    ∧ (90000 : Int) ≠ 1 := by
  refine ⟨rfl, by decide, by decide, by decide, by decide⟩

/-- Claim C9 (amended): a JSON string source value for a date column is parsed
through the host's RFC 3339 capability and the date cell holds the parsed
epoch integer divided by 1000000 (with the host's microsecond precision: a
truncation to seconds, not to a day boundary). -/
theorem json_to_cell_date_division (parse : String → Except String Int)
    (fields : List (String × Json)) (col : Column) (s : String) (ts : Int)
    (hoid : col.type_oid = TypeOid.Date) (hattrs : col.name ≠ "attrs")
    (hlook : lookupField fields col.name = some (.str s))
    (hparse : parse s = .ok ts) :
    json_to_cell parse (.obj fields) col = .ok (some (.Date (Int.tdiv ts 1000000))) := by
  simp [json_to_cell, hattrs, hoid, hlook, hparse, Json.asObj, Json.isNull, Except.map]

theorem json_to_cell_date_division_witness :
    json_to_cell parseStub rowC9 dateColumn = .ok (some (.Date 90000)) := by
  have h := json_to_cell_date_division parseStub [("updated_at", .str "1970-01-02T01:00:00Z")]
    dateColumn "1970-01-02T01:00:00Z" 90000000000 rfl (by decide) rfl rfl
  exact h.trans rfl

-- C8: table-name derivation

@[simp] theorem lastD_cons (d a : α) (l : List α) : lastD d (a :: l) = lastD a l := rfl

theorem lastD_irrel (l : List α) (h : l ≠ []) (d1 d2 : α) : lastD d1 l = lastD d2 l := by
  cases l with
  | nil => exact absurd rfl h
  | cons a rest => rfl

theorem lastD_mem (d : α) (l : List α) (h : l ≠ []) : lastD d l ∈ l := by
  induction l generalizing d with
  | nil => exact absurd rfl h
  | cons a rest ih =>
    cases rest with
    | nil => simp [lastD]
    | cons b rest2 =>
      rw [lastD_cons]
      exact List.mem_cons_of_mem a (ih a (by simp))

theorem splitChar_ne_nil (c : Char) (l : List Char) : splitChar c l ≠ [] := by
  cases l with
  | nil => simp [splitChar]
  | cons x rest =>
    rw [splitChar]
    by_cases h : x = c
    · simp [h]
    · simp only [if_neg h]
      cases hs : splitChar c rest <;> simp

theorem modLast_cons (f : α → α) (a : α) (l : List α) (h : l ≠ []) :
    modLast f (a :: l) = a :: modLast f l := by
  cases l with
  | nil => exact absurd rfl h
  | cons b rest => rfl

theorem modLast_ne_nil (f : α → α) (l : List α) (h : l ≠ []) : modLast f l ≠ [] := by
  cases l with
  | nil => exact absurd rfl h
  | cons a rest => cases rest <;> simp [modLast]

theorem lastD_modLast (f : α → α) (d : α) (l : List α) (h : l ≠ []) :
    lastD d (modLast f l) = f (lastD d l) := by
  induction l generalizing d with
  | nil => exact absurd rfl h
  | cons a rest ih =>
    cases rest with
    | nil => rfl
    | cons b rest2 =>
      rw [modLast_cons f a (b :: rest2) (by simp), lastD_cons, lastD_cons]
      exact ih a (by simp)

theorem splitChar_append_single (c x : Char) (hx : x ≠ c) (xs : List Char) :
    splitChar c (xs ++ [x]) = modLast (· ++ [x]) (splitChar c xs) := by
  induction xs with
  | nil => simp [splitChar, hx, modLast]
  | cons a rest ih =>
    by_cases ha : a = c
    · subst ha
      rw [List.cons_append, splitChar, if_pos rfl, ih, splitChar, if_pos rfl,
        modLast_cons _ _ _ (splitChar_ne_nil a rest)]
    · obtain ⟨s, ss, hs⟩ : ∃ s ss, splitChar c rest = s :: ss := by
        cases h : splitChar c rest with
        | nil => exact absurd h (splitChar_ne_nil c rest)
        | cons s ss => exact ⟨s, ss, rfl⟩
      rw [List.cons_append, splitChar, splitChar, if_neg ha, if_neg ha, ih, hs]
      cases ss with
      | nil => rfl
      | cons t ss2 =>
        rw [modLast_cons (· ++ [x]) s (t :: ss2) (by simp),
          modLast_cons (· ++ [x]) (a :: s) (t :: ss2) (by simp)]

theorem filter_modLast_lastD (x : Char) (S : List (List Char)) (h : S ≠ [])
    (d : List Char) :
    ∀ d2, lastD d2 ((modLast (· ++ [x]) S).filter (· ≠ [])) = lastD d S ++ [x] := by
  induction S generalizing d with
  | nil => exact absurd rfl h
  | cons s ss ih =>
    intro d2
    cases ss with
    | nil =>
      simp [modLast, lastD, List.filter]
    | cons t ss2 =>
      have hss : (t :: ss2 : List (List Char)) ≠ [] := by simp
      rw [modLast_cons (· ++ [x]) s (t :: ss2) hss]
      have hF : (modLast (· ++ [x]) (t :: ss2)).filter (· ≠ []) ≠ [] := by
        have hmem : lastD d (modLast (· ++ [x]) (t :: ss2)) ∈ modLast (· ++ [x]) (t :: ss2) :=
          lastD_mem _ _ (modLast_ne_nil _ _ hss)
        have hval : lastD d (modLast (· ++ [x]) (t :: ss2)) = lastD d (t :: ss2) ++ [x] :=
          lastD_modLast _ _ _ hss
        have hin : lastD d (modLast (· ++ [x]) (t :: ss2)) ∈
            (modLast (· ++ [x]) (t :: ss2)).filter (· ≠ []) := by
          rw [List.mem_filter]
          refine ⟨hmem, ?_⟩
          rw [hval]
          simp
        exact List.ne_nil_of_mem hin
      rw [List.filter_cons]
      by_cases hs : s = []
      · subst hs
        rw [if_neg (by decide), ih hss [] d2]
        rfl
      · rw [if_pos (decide_eq_true hs), lastD_cons, lastD_irrel _ hF s d2, ih hss [] d2]
        exact congrArg (fun l => l ++ [x]) (lastD_irrel (t :: ss2) hss [] s)

theorem getLast?_dropWhile (p : Char → Bool) (l : List Char)
    (h : l.dropWhile p ≠ []) : (l.dropWhile p).getLast? = l.getLast? := by
  induction l with
  | nil => simp at h
  | cons a rest ih =>
    rw [List.dropWhile_cons] at h ⊢
    by_cases hp : p a
    · rw [if_pos hp] at h ⊢
      have hrest : rest ≠ [] := by
        intro h0
        rw [h0] at h
        simp at h
      cases rest with
      | nil => exact absurd rfl hrest
      | cons b rest2 => rw [ih h, List.getLast?_cons_cons]
    · rw [if_neg hp]

theorem filter_splitChar_dropWhile (l : List Char) :
    (splitChar '/' (l.dropWhile (· = '/'))).filter (· ≠ []) =
      (splitChar '/' l).filter (· ≠ []) := by
  induction l with
  | nil => rfl
  | cons a rest ih =>
    by_cases h : a = '/'
    · subst h
      rw [List.dropWhile_cons, if_pos (by simp), ih, splitChar, if_pos rfl,
        List.filter_cons, if_neg (by decide)]
    · rw [List.dropWhile_cons, if_neg (by simp [h])]

theorem lastD_splitChar_filter (l : List Char) (h1 : l ≠ [])
    (h2 : l.getLast? ≠ some '/') (d1 d2 : List Char) :
    lastD d1 (splitChar '/' l) = lastD d2 ((splitChar '/' l).filter (· ≠ [])) := by
  obtain ⟨xs, x, rfl⟩ : ∃ xs x, l = xs ++ [x] :=
    ⟨l.dropLast, l.getLast h1, (List.dropLast_append_getLast h1).symm⟩
  have hx : x ≠ '/' := by
    intro hx
    subst hx
    exact h2 (by rw [List.getLast?_concat])
  rw [splitChar_append_single '/' x hx xs,
    lastD_modLast _ _ _ (splitChar_ne_nil '/' xs),
    filter_modLast_lastD x (splitChar '/' xs) (splitChar_ne_nil '/' xs) d1 d2]

/-- Claim C8 counterexample: for the endpoint path `/users/` the derived table
name is the empty string (the trailing empty segment of the split), not
the last NON-empty segment `users` that the claim specifies. -/
theorem table_name_trailing_slash_cex :
    table_name "/users/" = "" ∧ tableNameSpec "/users/" = "users"
    ∧ table_name "/users/" ≠ tableNameSpec "/users/" :=
  ⟨rfl, rfl, by decide⟩

/-- Claim C8 (amended): for every path that is non-empty and does not end with a
slash, the derived table name equals the last non-empty `/`-delimited
segment with `-` replaced by `_`; a path ending in `/` (or consisting only
of slashes) instead yields the trailing empty segment. -/
theorem table_name_last_nonempty_segment (path : String)
    (h1 : path.data ≠ []) (h2 : path.data.getLast? ≠ some '/') :
    table_name path = tableNameSpec path := by
  unfold table_name tableNameSpec
  have ht : path.data.dropWhile (· = '/') ≠ [] := by
    intro h0
    have hall := List.dropWhile_eq_nil_iff.mp h0
    have hmem : path.data.getLast h1 ∈ path.data := List.getLast_mem h1
    have hlast := hall _ hmem
    apply h2
    rw [List.getLast?_eq_getLast _ h1]
    simp only [decide_eq_true_eq] at hlast
    rw [hlast]
  have htl : (path.data.dropWhile (· = '/')).getLast? = path.data.getLast? :=
    getLast?_dropWhile _ _ ht
  rw [← filter_splitChar_dropWhile]
  exact congrArg (fun n => String.mk (n.map (fun c => if c = '-' then '_' else c)))
    (lastD_splitChar_filter _ ht (htl ▸ h2) _ _)

theorem table_name_last_nonempty_segment_witness :
    ("/api/v1/user-accounts".data ≠ [])
    ∧ table_name "/api/v1/user-accounts" = tableNameSpec "/api/v1/user-accounts"
    ∧ table_name "/api/v1/user-accounts" = "user_accounts" := by
  refine ⟨by decide, ?_, rfl⟩
  exact table_name_last_nonempty_segment "/api/v1/user-accounts" (by decide) (by decide)
